import Mathlib

/-!
Verification of the `Method` core of the `async-httplib` crate
(`src/method.rs`): the nine-variant HTTP method enumeration, its four
classification predicates, its `Display` rendering, its `FromStr` text
parsing and its `TryFrom<&[u8]>` byte parsing (UTF-8 decode followed by
text parsing).

Rust strings are modelled as Lean `String`, byte slices as `List Nat`
(each element a `u8` value), and `std::io::Error` as a kind/message
pair; the only kind the module constructs is `InvalidInput`.
-/

deriving instance DecidableEq for Except

/-- The nine standard HTTP request methods of `pub enum Method`. -/
inductive Method where
  | get
  | head
  | post
  | put
  | delete
  | connect
  | options
  | trace
  | patch
  deriving DecidableEq, Repr

/-- `Method::is_safe` (RFC 7231 §4.2.1). -/
def Method.is_safe : Method → Bool
  | .get | .head | .options | .trace => true
  | _ => false

/-- `Method::is_idempotent` (RFC 7231 §4.2.2). -/
def Method.is_idempotent : Method → Bool
  | .get | .head | .options | .trace | .put | .delete => true
  | _ => false

/-- `Method::is_cacheable` (RFC 7231 §4.2.3). -/
def Method.is_cacheable : Method → Bool
  | .get | .head => true
  | _ => false

/-- `Method::has_body`. -/
def Method.has_body : Method → Bool
  | .post | .put | .delete | .patch => true
  | _ => false

/-- `impl Display for Method`: the canonical uppercase token written by `fmt`. -/
def Method.render : Method → String
  | .get => "GET"
  | .head => "HEAD"
  | .post => "POST"
  | .put => "PUT"
  | .delete => "DELETE"
  | .connect => "CONNECT"
  | .options => "OPTIONS"
  | .trace => "TRACE"
  | .patch => "PATCH"

/-- The one `std::io::ErrorKind` value `method.rs` constructs. -/
inductive ErrorKind where
  | invalidInput
  deriving DecidableEq, Repr

/-- Shallow model of `std::io::Error`: the kind together with the message
string passed to `Error::new`. -/
structure IoError where
  kind : ErrorKind
  msg : String
  deriving DecidableEq, Repr

/-- `Method::from_str` (`impl FromStr`): sequential exact match against the
nine canonical tokens, in source order, with the catch-all arm producing
`Error::new(ErrorKind::InvalidInput, format!("The method `{}` is invalid.", s))`. -/
def Method.from_str (s : String) : Except IoError Method :=
  if s = "GET" then .ok .get
  else if s = "HEAD" then .ok .head
  else if s = "POST" then .ok .post
  else if s = "PUT" then .ok .put
  else if s = "DELETE" then .ok .delete
  else if s = "CONNECT" then .ok .connect
  else if s = "OPTIONS" then .ok .options
  else if s = "TRACE" then .ok .trace
  else if s = "PATCH" then .ok .patch
  else .error ⟨.invalidInput, "The method `" ++ s ++ "` is invalid."⟩

/-- Shallow model of `std::str::Utf8Error`: the length of the longest valid
prefix and the length of the invalid byte sequence (`none` when the input
ended in the middle of a character). -/
structure Utf8Error where
  valid_up_to : Nat
  error_len : Option Nat
  deriving DecidableEq, Repr

/-- The `Display` text of a `Utf8Error`, which is what
`FromUtf8Error::to_string()` produces. -/
def Utf8Error.render (e : Utf8Error) : String :=
  match e.error_len with
  | some l =>
      "invalid utf-8 sequence of " ++ toString l ++ " bytes from index " ++
        toString e.valid_up_to
  | none => "incomplete utf-8 byte sequence from index " ++ toString e.valid_up_to

/-- A UTF-8 continuation byte, `0x80 ..= 0xBF`. -/
def isCont (b : Nat) : Bool := 0x80 ≤ b && b ≤ 0xBF

/-- Admissible (first, second) byte pairs of a three-byte UTF-8 sequence,
as checked by `core::str` validation (rejects overlong forms and
surrogate code points). -/
def valid3 (b0 b1 : Nat) : Bool :=
  (b0 =  0xE0 && 0xA0 ≤ b1 && b1 ≤ 0xBF) ||
  (0xE1 ≤ b0 && b0 ≤ 0xEC && isCont b1) ||
  (b0 = 0xED && 0x80 ≤ b1 && b1 ≤ 0x9F) ||
  (0xEE ≤ b0 && b0 ≤ 0xEF && isCont b1)

/-- Admissible (first, second) byte pairs of a four-byte UTF-8 sequence,
as checked by `core::str` validation (rejects overlong forms and code
points above `0x10FFFF`). -/
def valid4 (b0 b1 : Nat) : Bool :=
  (b0 = 0xF0 && 0x90 ≤ b1 && b1 ≤ 0xBF) ||
  (0xF1 ≤ b0 && b0 ≤ 0xF3 && isCont b1) ||
  (b0 = 0xF4 && 0x80 ≤ b1 && b1 ≤ 0x8F)

/-- Strict UTF-8 decoding of a byte sequence into its Unicode scalar
values, producing on failure the `valid_up_to` index and `error_len` that
`core::str::from_utf8` reports; `i` is the index of the current position.
This is the validation `String::from_utf8` performs. -/
def decodeUtf8From : Nat → List Nat → Except Utf8Error (List Nat)
  | _, [] => .ok []
  | i, b0 :: rest =>
    if b0 ≤ 0x7F then
      (decodeUtf8From (i + 1) rest).map (fun cs => b0 :: cs)
    else if 0xC2 ≤ b0 && b0 ≤ 0xDF then
      match rest with
      | [] => .error ⟨i, none⟩
      | b1 :: rest2 =>
        if isCont b1 then
          (decodeUtf8From (i + 2) rest2).map
            (fun cs => ((b0 - 0xC0) * 0x40 + (b1 - 0x80)) :: cs)
        else .error ⟨i, some 1⟩
    else if 0xE0 ≤ b0 && b0 ≤ 0xEF then
      match rest with
      | [] => .error ⟨i, none⟩
      | b1 :: rest2 =>
        if valid3 b0 b1 then
          match rest2 with
          | [] => .error ⟨i, none⟩
          | b2 :: rest3 =>
            if isCont b2 then
              (decodeUtf8From (i + 3) rest3).map
                (fun cs =>
                  ((b0 - 0xE0) * 0x1000 + (b1 - 0x80) * 0x40 + (b2 - 0x80)) :: cs)
            else .error ⟨i, some 2⟩
        else .error ⟨i, some 1⟩
    else if 0xF0 ≤ b0 && b0 ≤ 0xF4 then
      match rest with
      | [] => .error ⟨i, none⟩
      | b1 :: rest2 =>
        if valid4 b0 b1 then
          match rest2 with
          | [] => .error ⟨i, none⟩
          | b2 :: rest3 =>
            if isCont b2 then
              match rest3 with
              | [] => .error ⟨i, none⟩
              | b3 :: rest4 =>
                if isCont b3 then
                  (decodeUtf8From (i + 4) rest4).map
                    (fun cs =>
                      ((b0 - 0xF0) * 0x40000 + (b1 - 0x80) * 0x1000 +
                        (b2 - 0x80) * 0x40 + (b3 - 0x80)) :: cs)
                else .error ⟨i, some 3⟩
            else .error ⟨i, some 2⟩
        else .error ⟨i, some 1⟩
    else .error ⟨i, some 1⟩

/-- `String::from_utf8(bytes.to_vec())`: decode the bytes as UTF-8 text or
report the first decoding error. -/
def string_from_utf8 (bytes : List Nat) : Except Utf8Error String :=
  (decodeUtf8From 0 bytes).map (fun cs => String.mk (cs.map Char.ofNat))

/-- `impl TryFrom<&[u8]> for Method`: decode the bytes as UTF-8 and parse
the resulting text, or wrap the decoding error's display text in
`Error::new(ErrorKind::InvalidInput, e.to_string())`. -/
def Method.try_from (bytes : List Nat) : Except IoError Method :=
  match string_from_utf8 bytes with
  | .ok txt => Method.from_str txt
  | .error e => .error ⟨.invalidInput, e.render⟩

/-- The UTF-8 byte encoding of one Unicode scalar value. -/
def encodeChar (c : Nat) : List Nat :=
  if c ≤ 0x7F then [c]
  else if c ≤ 0x7FF then [0xC0 + c / 0x40, 0x80 + c % 0x40]
  else if c ≤ 0xFFFF then
    [0xE0 + c / 0x1000, 0x80 + c / 0x40 % 0x40, 0x80 + c % 0x40]
  else
    [0xF0 + c / 0x40000, 0x80 + c / 0x1000 % 0x40, 0x80 + c / 0x40 % 0x40,
      0x80 + c % 0x40]

/-- The UTF-8 byte encoding of a string. -/
def utf8Encode (s : String) : List Nat :=
  s.data.flatMap (fun ch => encodeChar ch.toNat)

/-- The nine canonical textual tokens, in source order. -/
def canonicalTokens : List String :=
  ["GET", "HEAD", "POST", "PUT", "DELETE", "CONNECT", "OPTIONS", "TRACE", "PATCH"]

/-- All nine `Method` variants. -/
def Method.all : List Method :=
  [.get, .head, .post, .put, .delete, .connect, .options, .trace, .patch]

example : Method.from_str "GET" = .ok .get := by decide
example : Method.from_str "get" =
    .error ⟨.invalidInput, "The method `get` is invalid."⟩ := by decide
example : Method.try_from [0x47, 0x45, 0x54] = .ok .get := by decide
example : decodeUtf8From 0 [0x80] = .error ⟨0, some 1⟩ := by decide
example : Method.try_from [0x80] =
    .error ⟨.invalidInput, "invalid utf-8 sequence of 1 bytes from index 0"⟩ := by
  decide
example : utf8Encode "CONNECT" = [67, 79, 78, 78, 69, 67, 84] := by decide
example : decodeUtf8From 0 [0xC3, 0xA9] = .ok [0xE9] := by decide
example : decodeUtf8From 0 [0xC0, 0x80] = .error ⟨0, some 1⟩ := by decide
example : decodeUtf8From 0 [0xED, 0xA0, 0x80] = .error ⟨0, some 1⟩ := by decide
example : decodeUtf8From 0 [0x41, 0xC3] = .error ⟨1, none⟩ := by decide

theorem from_str_ok_iff (s : String) (m : Method) :
    Method.from_str s = .ok m ↔ s = m.render := by
  constructor
  · intro h
    unfold Method.from_str at h
    split_ifs at h <;> (injection h with h2; subst h2; simp_all [Method.render])
  · intro h
    subst h
    cases m <;> decide

/-- C1: `is_safe` holds exactly on GET, HEAD, OPTIONS, TRACE and
`is_idempotent` exactly on GET, HEAD, OPTIONS, TRACE, PUT, DELETE; both
are total Bool-valued functions. -/
theorem method_safe_idempotent_membership (m : Method) :
    (m.is_safe = true ↔ m ∈ [Method.get, .head, .options, .trace]) ∧
    (m.is_idempotent = true ↔
      m ∈ [Method.get, .head, .options, .trace, .put, .delete]) := by
  cases m <;> exact (by decide)

/-- C2: `is_cacheable` holds exactly on GET, HEAD and `has_body` exactly on
POST, PUT, DELETE, PATCH; both are total Bool-valued functions. -/
theorem method_cacheable_body_membership (m : Method) :
    (m.is_cacheable = true ↔ m ∈ [Method.get, .head]) ∧
    (m.has_body = true ↔ m ∈ [Method.post, .put, .delete, .patch]) := by
  cases m <;> exact (by decide)

/-- C3: round-trip law — parsing the rendered token of any variant
succeeds and yields the variant back. -/
theorem method_roundtrip (m : Method) :
    Method.from_str (Method.render m) = .ok m := by
  cases m <;> decide

/-- C8: implicit predicate chain — cacheable implies safe and safe implies
idempotent. -/
theorem predicate_inclusion_chain (m : Method) :
    (m.is_cacheable = true → m.is_safe = true) ∧
    (m.is_safe = true → m.is_idempotent = true) := by
  cases m <;> exact (by decide)

theorem predicate_inclusion_chain_witness :
    Method.is_safe .get = true ∧ Method.is_idempotent .get = true :=
  ⟨(predicate_inclusion_chain .get).1 (by decide),
    (predicate_inclusion_chain .get).2 (by decide)⟩

/-- C9: no safe method carries a request body — `is_safe` and `has_body`
are never both true. -/
theorem safe_not_has_body (m : Method) :
    (m.is_safe && m.has_body) = false := by
  cases m <;> decide

/-- C7: rendering is the exact inverse of parsing on tokens — whenever
parsing a string succeeds, rendering the resulting variant reproduces that
string; rendering is a total function. -/
theorem render_left_inverse_of_parse (s : String) (m : Method)
    (h : Method.from_str s = .ok m) : Method.render m = s :=
  ((from_str_ok_iff s m).mp h).symm

theorem render_left_inverse_of_parse_witness :
    Method.render .post = "POST" :=
  render_left_inverse_of_parse "POST" .post (by decide)

/-- C5: exactness of text parsing — parsing succeeds exactly on the nine
canonical tokens, and on every other string it fails with the
`InvalidInput` error whose message reports the invalid method. -/
theorem from_str_exactness (s : String) :
    ((∃ m, Method.from_str s = .ok m) ↔ s ∈ canonicalTokens) ∧
    (s ∉ canonicalTokens →
      Method.from_str s =
        .error ⟨.invalidInput, "The method `" ++ s ++ "` is invalid."⟩) := by
  refine ⟨⟨?_, ?_⟩, ?_⟩
  · rintro ⟨m, h⟩
    rw [from_str_ok_iff] at h
    subst h
    cases m <;> decide
  · intro hs
    simp only [canonicalTokens, List.mem_cons, List.not_mem_nil, or_false] at hs
    rcases hs with rfl | rfl | rfl | rfl | rfl | rfl | rfl | rfl | rfl <;>
      first
        | exact ⟨.get, by decide⟩
        | exact ⟨.head, by decide⟩
        | exact ⟨.post, by decide⟩
        | exact ⟨.put, by decide⟩
        | exact ⟨.delete, by decide⟩
        | exact ⟨.connect, by decide⟩
        | exact ⟨.options, by decide⟩
        | exact ⟨.trace, by decide⟩
        | exact ⟨.patch, by decide⟩
  · intro hs
    unfold Method.from_str
    split_ifs with h1 h2 h3 h4 h5 h6 h7 h8 h9 <;> simp_all [canonicalTokens]

theorem from_str_exactness_witness :
    Method.from_str "PROPFIND" =
      .error ⟨.invalidInput, "The method `" ++ "PROPFIND" ++ "` is invalid."⟩ :=
  (from_str_exactness "PROPFIND").2 (by decide)

/-- C6: byte/text equivalence — for each canonical token, parsing its
UTF-8 byte encoding gives the same result as parsing the token as text. -/
theorem byte_text_equivalence (s : String) (h : s ∈ canonicalTokens) :
    Method.try_from (utf8Encode s) = Method.from_str s := by
  simp only [canonicalTokens, List.mem_cons, List.not_mem_nil, or_false] at h
  rcases h with rfl | rfl | rfl | rfl | rfl | rfl | rfl | rfl | rfl <;> decide

theorem byte_text_equivalence_witness :
    Method.try_from (utf8Encode "GET") = Method.from_str "GET" :=
  byte_text_equivalence "GET" (by decide)

theorem decodeUtf8From_cons_not_ascii (i b0 : Nat) (rest cps : List Nat)
    (h1 : ¬ b0 ≤ 0x7F) (h : decodeUtf8From i (b0 :: rest) = .ok cps) :
    ∃ cp cs, cps = cp :: cs ∧ 0x80 ≤ cp := by
  unfold decodeUtf8From at h
  rw [if_neg h1] at h
  split at h
  · rename_i hb0
    split at h
    · exact absurd h (by simp)
    · rename_i b1 rest2
      split at h
      · cases hr : decodeUtf8From (i + 2) rest2 with
        | error e => rw [hr] at h; exact absurd h (by simp [Except.map])
        | ok cs =>
            rw [hr] at h
            simp only [Except.map, Except.ok.injEq] at h
            refine ⟨_, cs, h.symm, ?_⟩
            simp only [Bool.and_eq_true, decide_eq_true_eq] at hb0
            omega
      · exact absurd h (by simp)
  · split at h
    · rename_i hb0
      split at h
      · exact absurd h (by simp)
      · rename_i b1 rest2
        split at h
        · rename_i hv3
          split at h
          · exact absurd h (by simp)
          · rename_i b2 rest3
            split at h
            · cases hr : decodeUtf8From (i + 3) rest3 with
              | error e => rw [hr] at h; exact absurd h (by simp [Except.map])
              | ok cs =>
                  rw [hr] at h
                  simp only [Except.map, Except.ok.injEq] at h
                  refine ⟨_, cs, h.symm, ?_⟩
                  simp only [valid3, isCont, Bool.or_eq_true, Bool.and_eq_true,
                    decide_eq_true_eq] at hv3
                  omega
            · exact absurd h (by simp)
        · exact absurd h (by simp)
    · split at h
      · rename_i hb0
        split at h
        · exact absurd h (by simp)
        · rename_i b1 rest2
          split at h
          · rename_i hv4
            split at h
            · exact absurd h (by simp)
            · rename_i b2 rest3
              split at h
              · split at h
                · exact absurd h (by simp)
                · rename_i b3 rest4
                  split at h
                  · cases hr : decodeUtf8From (i + 4) rest4 with
                    | error e => rw [hr] at h; exact absurd h (by simp [Except.map])
                    | ok cs =>
                        rw [hr] at h
                        simp only [Except.map, Except.ok.injEq] at h
                        refine ⟨_, cs, h.symm, ?_⟩
                        simp only [valid4, isCont, Bool.or_eq_true, Bool.and_eq_true,
                          decide_eq_true_eq] at hv4
                        omega
                  · exact absurd h (by simp)
              · exact absurd h (by simp)
          · exact absurd h (by simp)
      · exact absurd h (by simp)

theorem decodeUtf8From_ascii : ∀ (l : List Nat) (i : Nat) (cps : List Nat),
    decodeUtf8From i l = .ok cps → (∀ c ∈ cps, c ≤ 0x7F) → l = cps := by
  intro l
  induction l with
  | nil =>
      intro i cps h _
      injection h with h2
  | cons b0 rest ih =>
      intro i cps h ha
      by_cases h1 : b0 ≤ 0x7F
      · unfold decodeUtf8From at h
        rw [if_pos h1] at h
        cases hr : decodeUtf8From (i + 1) rest with
        | error e => rw [hr] at h; exact absurd h (by simp [Except.map])
        | ok cs =>
            rw [hr] at h
            simp only [Except.map, Except.ok.injEq] at h
            subst h
            rw [ih (i + 1) cs hr (fun c hc => ha c (by simp [hc]))]
      · obtain ⟨cp, cs, rfl, hcp⟩ := decodeUtf8From_cons_not_ascii i b0 rest cps h1 h
        have := ha cp (by simp)
        omega

theorem toNat_charOfNat_of_valid (n : Nat) (h : n.isValidChar) :
    (Char.ofNat n).toNat = n := by
  simp [Char.ofNat, h, Char.ofNatAux, Char.toNat, UInt32.toNat, BitVec.toNat_ofNatLt]

theorem toNat_charOfNat_of_not_valid (n : Nat) (h : ¬ n.isValidChar) :
    (Char.ofNat n).toNat = 0 := by
  simp [Char.ofNat, h, Char.toNat, UInt32.toNat]

theorem charOfNat_eq (n : Nat) (c : Char) (hc : c.toNat ≠ 0)
    (h : Char.ofNat n = c) : n = c.toNat := by
  by_cases v : n.isValidChar
  · rw [← h, toNat_charOfNat_of_valid n v]
  · exact absurd (h ▸ toNat_charOfNat_of_not_valid n v) hc

theorem map_charOfNat_inj (cps : List Nat) (chs : List Char)
    (h : cps.map Char.ofNat = chs) (h0 : ∀ c ∈ chs, c.toNat ≠ 0) :
    cps = chs.map Char.toNat := by
  induction cps generalizing chs with
  | nil =>
      subst h
      rfl
  | cons a as ih =>
      cases chs with
      | nil => simp at h
      | cons c cs =>
          simp only [List.map_cons, List.cons.injEq] at h
          obtain ⟨h1, h2⟩ := h
          have ha := charOfNat_eq a c (h0 c (by simp)) h1
          simp only [List.map_cons, List.cons.injEq]
          exact ⟨ha, ih cs h2 (fun x hx => h0 x (by simp [hx]))⟩

theorem try_from_ok_imp (b : List Nat) (m : Method)
    (h : Method.try_from b = .ok m) : b = utf8Encode (Method.render m) := by
  unfold Method.try_from at h
  cases hs : string_from_utf8 b with
  | error e => rw [hs] at h; exact absurd h (by simp)
  | ok txt =>
      rw [hs] at h
      have htxt : txt = m.render := (from_str_ok_iff txt m).mp h
      unfold string_from_utf8 at hs
      cases hd : decodeUtf8From 0 b with
      | error e => rw [hd] at hs; exact absurd hs (by simp [Except.map])
      | ok cps =>
          rw [hd] at hs
          simp only [Except.map, Except.ok.injEq] at hs
          rw [htxt] at hs
          have hdata : cps.map Char.ofNat = (m.render).data :=
            congrArg String.data hs
          have hcps : cps = (m.render).data.map Char.toNat :=
            map_charOfNat_inj cps (m.render).data hdata (by cases m <;> decide)
          have hascii : ∀ c ∈ cps, c ≤ 0x7F := by
            rw [hcps]; cases m <;> decide
          have hb : b = cps := decodeUtf8From_ascii b 0 cps hd hascii
          rw [hb, hcps]
          cases m <;> decide

/-- C10: byte-level exactness — `try_from` succeeds exactly on the UTF-8
encodings of the nine canonical tokens, returning the matching variant,
and every other byte sequence yields an error. -/
theorem try_from_byte_exactness (b : List Nat) :
    (∀ m : Method,
      Method.try_from b = .ok m ↔ b = utf8Encode (Method.render m)) ∧
    ((∀ m : Method, b ≠ utf8Encode (Method.render m)) →
      ∃ e, Method.try_from b = .error e) := by
  have hiff : ∀ m : Method,
      Method.try_from b = .ok m ↔ b = utf8Encode (Method.render m) := by
    intro m
    constructor
    · exact try_from_ok_imp b m
    · intro h
      subst h
      cases m <;> decide
  refine ⟨hiff, ?_⟩
  intro hne
  cases h : Method.try_from b with
  | ok m => exact absurd ((hiff m).mp h) (hne m)
  | error e => exact ⟨e, rfl⟩

theorem try_from_byte_exactness_witness :
    Method.try_from [0x47, 0x45, 0x54] = .ok .get ∧
    ∃ e, Method.try_from [0xFF] = .error e :=
  ⟨((try_from_byte_exactness [0x47, 0x45, 0x54]).1 .get).mpr (by decide),
    (try_from_byte_exactness [0xFF]).2 (fun m => by cases m <;> decide)⟩

theorem string_append_head (a b : String) (c : Char)
    (hc : a.data.head? = some c) : (a ++ b).data.head? = some c := by
  rw [String.data_append, List.head?_append, hc]
  rfl

theorem utf8_render_ne_method_msg (e : Utf8Error) (s : String) :
    e.render ≠ "The method `" ++ s ++ "` is invalid." := by
  intro h
  have hR : ("The method `" ++ s ++ "` is invalid.").data.head? = some 'T' :=
    string_append_head _ _ 'T' (string_append_head "The method `" s 'T' rfl)
  have hL : e.render.data.head? = some 'i' := by
    rcases e with ⟨i, el⟩
    cases el with
    | some l =>
        exact string_append_head _ _ 'i'
          (string_append_head _ _ 'i'
            (string_append_head "invalid utf-8 sequence of " (toString l) 'i' rfl))
    | none =>
        exact string_append_head "incomplete utf-8 byte sequence from index "
          (toString i) 'i' rfl
  rw [h, hR] at hL
  exact absurd (Option.some.inj hL) (by decide)

/-- C4: every byte sequence that is not valid UTF-8 makes `try_from` fail
with the UTF-8 decoding error (the `InvalidEncoding` condition), whose
message differs from every invalid-method message, so the caller can tell
the two failure conditions apart. -/
theorem try_from_invalid_utf8 (b : List Nat) (e : Utf8Error)
    (h : decodeUtf8From 0 b = .error e) :
    Method.try_from b = .error ⟨.invalidInput, e.render⟩ ∧
    ∀ s : String,
      (⟨.invalidInput, e.render⟩ : IoError) ≠
        ⟨.invalidInput, "The method `" ++ s ++ "` is invalid."⟩ := by
  constructor
  · unfold Method.try_from string_from_utf8
    rw [h]
    rfl
  · intro s heq
    exact utf8_render_ne_method_msg e s (congrArg IoError.msg heq)

theorem try_from_invalid_utf8_witness :
    Method.try_from [0x80] =
      .error ⟨.invalidInput, Utf8Error.render ⟨0, some 1⟩⟩ ∧
    (⟨.invalidInput, Utf8Error.render ⟨0, some 1⟩⟩ : IoError) ≠
      ⟨.invalidInput, "The method `" ++ "PROPFIND" ++ "` is invalid."⟩ :=
  ⟨(try_from_invalid_utf8 [0x80] ⟨0, some 1⟩ (by decide)).1,
    (try_from_invalid_utf8 [0x80] ⟨0, some 1⟩ (by decide)).2 "PROPFIND"⟩
